import Mathlib

/-!
Verification development for the SF Metadata Tracker status/diff caching and
batch-reconciliation engine.  This file shallowly embeds the source-tracking
service (`source-tracking.js`: connection cache, metadata status cache, batch
query planner, content diff engine, diff result cache) and the decoration
decision logic of `file-decorations.js`.

Modelling conventions:
* JavaScript `Map`s become association lists with JS semantics: lookup returns
  the first (unique) matching key, `set` updates in place or appends, `delete`
  removes the key.
* Strings are Lean `String`; `replace` with a string pattern replaces the
  first occurrence, `replace` with a `/…$/` regex strips an anchored suffix.
* Timestamps are naturals (milliseconds since epoch).
* The remote command gateway (`shell.execCommandWithTimeout` followed by
  `JSON.parse`) is an oracle returning either a thrown error message
  (timeout / process failure / parse failure all land in the same `catch`)
  or parsed JSON data.
-/

set_option autoImplicit false

namespace SfTracker

/-! ### JS `Map` model -/

/-- `Map.prototype.get`: first entry with the key (keys are kept unique by `mapSet`). -/
def mapFind {α : Type} : List (String × α) → String → Option α
  | [], _ => none
  | e :: m, k => if e.1 == k then some e.2 else mapFind m k

/-- `Map.prototype.set`: update the existing key in place, else append at the end. -/
def mapSet {α : Type} : List (String × α) → String → α → List (String × α)
  | [], k, v => [(k, v)]
  | e :: m, k, v => if e.1 == k then (k, v) :: m else e :: mapSet m k v

/-- `Map.prototype.delete`. -/
def mapDelete {α : Type} : List (String × α) → String → List (String × α)
  | [], _ => []
  | e :: m, k => if e.1 == k then mapDelete m k else e :: mapDelete m k

theorem mapFind_nil {α : Type} (k : String) : mapFind ([] : List (String × α)) k = none := rfl

theorem mapFind_mapSet_self {α : Type} (m : List (String × α)) (k : String) (v : α) :
    mapFind (mapSet m k v) k = some v := by
  induction m with
  | nil => simp [mapFind, mapSet]
  | cons e m ih =>
    by_cases he : e.1 = k
    · simp [mapFind, mapSet, he]
    · simp [mapFind, mapSet, he, ih]

theorem mapFind_mapSet_ne {α : Type} (m : List (String × α)) (k k' : String) (v : α)
    (h : k' ≠ k) : mapFind (mapSet m k v) k' = mapFind m k' := by
  induction m with
  | nil => simp [mapFind, mapSet, Ne.symm h]
  | cons e m ih =>
    by_cases he : e.1 = k
    · simp [mapFind, mapSet, he, Ne.symm h]
    · by_cases hk' : e.1 = k'
      · simp [mapFind, mapSet, he, hk', h]
      · simp [mapFind, mapSet, he, hk', ih]

theorem mapFind_mapDelete_self {α : Type} (m : List (String × α)) (k : String) :
    mapFind (mapDelete m k) k = none := by
  induction m with
  | nil => rfl
  | cons e m ih =>
    by_cases he : e.1 = k
    · simpa [mapDelete, he] using ih
    · simp [mapFind, mapDelete, he, ih]

theorem mapFind_mapDelete_ne {α : Type} (m : List (String × α)) (k k' : String)
    (h : k' ≠ k) : mapFind (mapDelete m k) k' = mapFind m k' := by
  induction m with
  | nil => rfl
  | cons e m ih =>
    by_cases he : e.1 = k
    · have hk : e.1 ≠ k' := by simpa [he] using Ne.symm h
      simp [mapFind, mapDelete, he, hk, ih, Ne.symm h]
    · by_cases hk' : e.1 = k'
      · simp [mapFind, mapDelete, he, hk', h]
      · simp [mapFind, mapDelete, he, hk', ih]

/-! ### JS string primitives -/

/-- JS `String.prototype.endsWith`. -/
def endsWithStr (s suffix : String) : Bool := suffix.data.isSuffixOf s.data

/-- Substring occurrence test on character lists. -/
def isInfixOfChars (needle : List Char) : List Char → Bool
  | [] => needle.isEmpty
  | c :: rest => needle.isPrefixOf (c :: rest) || isInfixOfChars needle rest

/-- JS `String.prototype.includes` (substring test). -/
def containsStr (s sub : String) : Bool := isInfixOfChars sub.data s.data

/-- JS `str.replace(pattern, repl)` with a *string* pattern: replace only the
first occurrence, scanning left to right. -/
def replaceFirstChars (needle repl : List Char) : List Char → List Char
  | [] => []
  | c :: rest =>
    if needle.isPrefixOf (c :: rest) then repl ++ (c :: rest).drop needle.length
    else c :: replaceFirstChars needle repl rest

def replaceFirstStr (s needle repl : String) : String :=
  ⟨replaceFirstChars needle.data repl.data s.data⟩

/-- `path.replace(/\\/g, '/')`: normalize Windows separators. -/
def slashify (s : String) : String := ⟨s.data.map (fun c => if c = '\\' then '/' else c)⟩

/-! ### Path normalization (two distinct variants used by the source) -/

/-- `normalizeFilePath` (source-tracking.js 922-927): strip the first
`-meta.xml` occurrence when the path *ends* with `-meta.xml`, then normalize
separators. -/
def normalizeFilePath (filePath : String) : String :=
  let normalized :=
    if endsWithStr filePath "-meta.xml" then replaceFirstStr filePath "-meta.xml" ""
    else filePath
  slashify normalized

/-- The status-cache key normalization used at source-tracking.js 195, 237, 288:
first normalize separators (backslash to slash), then strip an *anchored*
trailing `-meta.xml` (the second `replace` uses a `$`-anchored regex, so only
a suffix occurrence is removed). -/
def normalizeStatusPath (filePath : String) : String :=
  let s := slashify filePath
  if endsWithStr s "-meta.xml" then ⟨s.data.take (s.data.length - 9)⟩ else s

/-! ### Diff result cache -/

/-- An entry of `fileDiffCache`: `{hasDifference, isOrgNewer?, isNew?, timestamp}`.
`isOrgNewer` and `isNew` are optional because some producers omit them
(JS `undefined`). -/
structure DiffEntry where
  hasDifference : Bool
  isOrgNewer : Option Bool := none
  isNew : Option Bool := none
  timestamp : Nat
deriving Repr, DecidableEq

/-- Return value of `getFileDiffStatus`. -/
structure DiffStatus where
  hasDifference : Bool
  isOrgNewer : Bool
  isCompared : Bool
deriving Repr, DecidableEq

abbrev DiffCache := List (String × DiffEntry)

/-- `getFileDiffStatus` (source-tracking.js 935-968): try the normalized path,
the exact path, the sidecar-stripped parent path (for `-meta.xml` files), and
finally a linear scan for any entry whose normalized key matches. -/
def getFileDiffStatus (fileDiffCache : DiffCache) (filePath : String) : DiffStatus :=
  let normalizedPath := normalizeFilePath filePath
  match mapFind fileDiffCache normalizedPath with
  | some cached => ⟨cached.hasDifference, cached.isOrgNewer.getD false, true⟩
  | none =>
    match mapFind fileDiffCache filePath with
    | some cached => ⟨cached.hasDifference, cached.isOrgNewer.getD false, true⟩
    | none =>
      let viaParent :=
        if endsWithStr filePath "-meta.xml" then
          mapFind fileDiffCache (replaceFirstStr filePath "-meta.xml" "")
        else none
      match viaParent with
      | some cached => ⟨cached.hasDifference, cached.isOrgNewer.getD false, true⟩
      | none =>
        match fileDiffCache.find? (fun e => normalizeFilePath e.1 == normalizedPath) with
        | some e => ⟨e.2.hasDifference, e.2.isOrgNewer.getD false, true⟩
        | none => ⟨false, false, false⟩

/-- The diff-cache write performed by `batchCompareFilesWithOrg` (849-856):
store under the normalized path, and additionally under the original path when
the two differ. -/
def diffCacheStore (dc : DiffCache) (filePath : String) (entry : DiffEntry) : DiffCache :=
  let normalizedPath := normalizeFilePath filePath
  let dc1 := mapSet dc normalizedPath entry
  if normalizedPath ≠ filePath then mapSet dc1 filePath entry else dc1

/-! ### Metadata status cache and tracker state -/

structure StatusData where
  inSync : Option Bool := none
  error : Option String := none
  lastModifiedBy : Option String := none
  lastModifiedDate : Option String := none
  createdBy : Option String := none
  createdDate : Option String := none
  mdType : Option String := none
  name : Option String := none
deriving Repr, DecidableEq

/-- `sourceStatusCache` entry: `{timestamp, data}`. -/
structure CacheEntry where
  timestamp : Nat
  data : StatusData
deriving Repr, DecidableEq

abbrev StatusCache := List (String × CacheEntry)

/-- The module-level `orgConnectionCache` object. -/
structure OrgConnectionCache where
  connected : Bool := false
  orgAlias : Option String := none
  username : Option String := none
  instanceUrl : Option String := none
  lastChecked : Option Nat := none
  expiresAt : Option String := none
  error : Option String := none
  errorType : Option String := none
deriving Repr, DecidableEq

/-- The module-level mutable state of `source-tracking.js`. -/
structure TrackerState where
  orgConnectionCache : OrgConnectionCache
  sourceStatusCache : StatusCache
  fileDiffCache : DiffCache
deriving Repr

/-- Return value of `getCachedOrgConnection` (146-152). -/
structure ConnSnapshot where
  connected : Bool
  orgAlias : Option String
  username : Option String
deriving Repr, DecidableEq

def getCachedOrgConnection (st : TrackerState) : ConnSnapshot :=
  ⟨st.orgConnectionCache.connected, st.orgConnectionCache.orgAlias,
    st.orgConnectionCache.username⟩

/-- `clearOrgCache` (157-168): reset the connection cache to the disconnected
empty object and clear `sourceStatusCache`; `fileDiffCache` is not touched. -/
def clearOrgCache (st : TrackerState) : TrackerState :=
  { st with
    orgConnectionCache :=
      { connected := false, orgAlias := none, username := none,
        lastChecked := none, expiresAt := none, error := none, errorType := none },
    sourceStatusCache := [] }

/-- `invalidateFileCache` (1009-1012): delete the *exact* key from both caches. -/
def invalidateFileCache (st : TrackerState) (filePath : String) : TrackerState :=
  { st with
    sourceStatusCache := mapDelete st.sourceStatusCache filePath,
    fileDiffCache := mapDelete st.fileDiffCache filePath }


/-! ### Metadata types, path classification and SOQL construction -/

/-- The seven metadata kinds producible by `getMetadataTypeFromPath`. -/
inductive MetadataType where
  | ApexClass | ApexTrigger | ApexPage | ApexComponent
  | LightningComponentBundle | AuraDefinitionBundle | Flow
deriving Repr, DecidableEq

def MetadataType.str : MetadataType → String
  | .ApexClass => "ApexClass"
  | .ApexTrigger => "ApexTrigger"
  | .ApexPage => "ApexPage"
  | .ApexComponent => "ApexComponent"
  | .LightningComponentBundle => "LightningComponentBundle"
  | .AuraDefinitionBundle => "AuraDefinitionBundle"
  | .Flow => "Flow"

/-- Return value of `getMetadataTypeFromPath`; in the source `apiName` always
equals `name`. -/
structure MetadataInfo where
  mdType : MetadataType
  name : String
  apiName : String
deriving Repr, DecidableEq

/-- POSIX `path.basename`: last component, ignoring trailing separators. -/
def pathBasename (s : String) : String :=
  let r := s.data.reverse.dropWhile (· = '/')
  ⟨(r.takeWhile (· ≠ '/')).reverse⟩

/-- POSIX `path.dirname`. -/
def pathDirname (s : String) : String :=
  let r := s.data.reverse.dropWhile (· = '/')
  let rest := (r.dropWhile (· ≠ '/')).dropWhile (· = '/')
  if rest.isEmpty then (if s.data.head? = some '/' then "/" else ".") else ⟨rest.reverse⟩

/-- `getMetadataTypeFromPath` (370-424).  The bundle branches look up the
component name as the path segment following `lwc` / `aura` and fall through
to later branches when the segment is missing, exactly like the source. -/
def getMetadataTypeFromPath (filePath : String) : Option MetadataInfo :=
  let fileName := pathBasename filePath
  let dirName := pathDirname filePath
  let parts := dirName.splitOn "/"
  let bundleHit : String → MetadataType → Option MetadataInfo := fun seg ty =>
    if containsStr filePath ("/" ++ seg ++ "/") then
      match parts.findIdx? (fun p => p == seg) with
      | some i =>
        if i + 1 < parts.length then (parts.get? (i + 1)).map (fun n => ⟨ty, n, n⟩)
        else none
      | none => none
    else none
  if containsStr filePath "/classes/" && endsWithStr fileName ".cls" then
    let n := replaceFirstStr fileName ".cls" ""
    some ⟨.ApexClass, n, n⟩
  else if containsStr filePath "/triggers/" && endsWithStr fileName ".trigger" then
    let n := replaceFirstStr fileName ".trigger" ""
    some ⟨.ApexTrigger, n, n⟩
  else if (bundleHit "lwc" .LightningComponentBundle).isSome then
    bundleHit "lwc" .LightningComponentBundle
  else if (bundleHit "aura" .AuraDefinitionBundle).isSome then
    bundleHit "aura" .AuraDefinitionBundle
  else if containsStr filePath "/pages/" && endsWithStr fileName ".page" then
    let n := replaceFirstStr fileName ".page" ""
    some ⟨.ApexPage, n, n⟩
  else if containsStr filePath "/components/" && endsWithStr fileName ".component" then
    let n := replaceFirstStr fileName ".component" ""
    some ⟨.ApexComponent, n, n⟩
  else if containsStr filePath "/flows/" && endsWithStr fileName ".flow-meta.xml" then
    let n := replaceFirstStr fileName ".flow-meta.xml" ""
    some ⟨.Flow, n, n⟩
  else none

/-- A single-quote character (used by the SOQL builders to quote names). -/
def sq : String := ⟨[Char.ofNat 39]⟩

/-- The SELECT field list shared by every query of `buildMetadataQuery` /
`buildBatchMetadataQuery`, parametrized by the name field. -/
def soqlFields (nameField : String) : String :=
  "SELECT Id, " ++ nameField ++ ", LastModifiedBy.Name, LastModifiedDate, CreatedBy.Name, CreatedDate FROM "

/-- Remote object and name field targeted by each metadata type (the `switch`
bodies of 431-459 / 467-493; `Flow` queries `FlowDefinition`). -/
def MetadataType.queryObject : MetadataType → String × String
  | .ApexClass => ("ApexClass", "Name")
  | .ApexTrigger => ("ApexTrigger", "Name")
  | .ApexPage => ("ApexPage", "Name")
  | .ApexComponent => ("ApexComponent", "Name")
  | .LightningComponentBundle => ("LightningComponentBundle", "DeveloperName")
  | .AuraDefinitionBundle => ("AuraDefinitionBundle", "DeveloperName")
  | .Flow => ("FlowDefinition", "DeveloperName")

/-- `buildMetadataQuery` (431-459); total because the argument enumerates the
seven types of the `switch` (the JS `default: null` case is unreachable). -/
def buildMetadataQuery (mi : MetadataInfo) : String :=
  let (obj, fld) := mi.mdType.queryObject
  soqlFields fld ++ obj ++ " WHERE " ++ fld ++ " = " ++ sq ++ mi.name ++ sq ++ " LIMIT 1"

/-- The comma-joined quoted name list of line 210. -/
def inClauseOf (names : List String) : String :=
  String.intercalate "," (names.map (fun n => sq ++ n ++ sq))

/-- `buildBatchMetadataQuery` (467-493), total over the seven types. -/
def buildBatchMetadataQuery (mdType : MetadataType) (namesInClause : String) : String :=
  let (obj, fld) := mdType.queryObject
  soqlFields fld ++ obj ++ " WHERE " ++ fld ++ " IN (" ++ namesInClause ++ ")"

/-! ### Remote gateway oracle -/

/-- Remote commands the source issues (`sf org display` is handled by the
connection-check model below). -/
inductive Cmd where
  | dataQuery (soql : String)
  | retrieveCmd (specs : List String) (outputDir : String)
deriving Repr, DecidableEq

/-- A record of `result.records[]` as consumed by the source. -/
structure QueryRecord where
  nameField : Option String
  developerName : Option String
  lastModifiedByName : Option String
  lastModifiedById : Option String
  lastModifiedDate : Option String
  createdByName : Option String
  createdById : Option String
  createdDate : Option String
deriving Repr, DecidableEq

/-- Parsed JSON of a query response: `status`, `result?.records`, `message`. -/
structure QueryData where
  status : Int
  records : Option (List QueryRecord)
  message : Option String
deriving Repr, DecidableEq

/-- Outcome of `execCommandWithTimeout` + `JSON.parse`: a thrown error
(timeout, process failure, or JSON parse failure — all reach the `catch`)
or parsed data. -/
inductive RemoteOutcome where
  | throws (msg : String)
  | parsed (data : QueryData)
deriving Repr, DecidableEq

/-- Environment of the status-query functions.  `orgConnected` is the
`connected` field returned by `checkOrgConnection()` (modelled separately as
`ConnMachine`); its `sf org display` traffic is not a data query. -/
structure QueryEnv where
  orgConnected : Bool
  now : Nat
  cacheTTL : Nat
  remote : Cmd → RemoteOutcome

/-- `{ inSync: null, error: 'Not connected to org' }`. -/
def notConnectedData : StatusData := { error := some "Not connected to org" }

/-- `{ inSync: null, error: 'Component not found in org' }`. -/
def notFoundData : StatusData := { error := some "Component not found in org" }

def errorData (msg : String) : StatusData := { error := some msg }

/-- The status object built from a returned record (240-248 / 333-341);
`lastModifiedBy` is `LastModifiedBy?.Name || LastModifiedById`. -/
def statusDataOfRecord (mdType : MetadataType) (fname : String) (r : QueryRecord) : StatusData :=
  { inSync := none
    lastModifiedBy := r.lastModifiedByName <|> r.lastModifiedById
    lastModifiedDate := r.lastModifiedDate
    createdBy := r.createdByName <|> r.createdById
    createdDate := r.createdDate
    mdType := some mdType.str
    name := some fname }

/-- `record.Name || record.DeveloperName` (line 228). -/
def recordName (r : QueryRecord) : Option String := r.nameField <|> r.developerName

/-- The name-to-record map of 225-231.  Records are considered only when
`status == 0` and `result.records` exists; a record with neither name field
gets the JS-`undefined` key, which no string-valued request name can match,
so it is omitted. -/
def buildRecordMap (data : QueryData) : List (String × QueryRecord) :=
  if data.status = 0 then
    match data.records with
    | some rs =>
      rs.foldl (fun m r =>
        match recordName r with
        | some n => mapSet m n r
        | none => m) []
    | none => []
  else []


/-! ### `getFileOrgStatus` and `batchGetFileOrgStatus` -/

structure FileReq where
  filePath : String
  name : String
deriving Repr, DecidableEq

/-- Result of a batch status call: the returned map, the updated status cache,
and the data-query commands issued. -/
structure BatchResult where
  results : List (String × StatusData)
  cache : StatusCache
  cmds : List Cmd
deriving Repr

/-- The cache probe of the batch loop (193-202):
`sourceStatusCache.get(normalizedPath) || sourceStatusCache.get(file.filePath)`. -/
def batchCacheLookup (cache : StatusCache) (f : FileReq) : Option CacheEntry :=
  mapFind cache (normalizeStatusPath f.filePath) <|> mapFind cache f.filePath

/-- The cache-hit partition step of the loop at 193-202. -/
def batchHitStep (env : QueryEnv) (cache : StatusCache)
    (acc : List (String × StatusData) × List FileReq) (f : FileReq) :
    List (String × StatusData) × List FileReq :=
  match batchCacheLookup cache f with
  | some cached =>
    if env.now - cached.timestamp < env.cacheTTL then
      (mapSet acc.1 f.filePath cached.data, acc.2)
    else (acc.1, acc.2 ++ [f])
  | none => (acc.1, acc.2 ++ [f])

/-- The status object stored for a processed file (234-264): the record data
when its name is in the record map, else the NotFound terminal entry. -/
def batchValue (metadataType : MetadataType) (recordMap : List (String × QueryRecord))
    (f : FileReq) : StatusData :=
  match mapFind recordMap f.name with
  | some r => statusDataOfRecord metadataType f.name r
  | none => notFoundData

/-- The per-file result/cache update on a parsed response (234-265). -/
def batchRecordStep (env : QueryEnv) (metadataType : MetadataType)
    (recordMap : List (String × QueryRecord))
    (acc : List (String × StatusData) × StatusCache) (f : FileReq) :
    List (String × StatusData) × StatusCache :=
  let normalizedPath := normalizeStatusPath f.filePath
  match mapFind recordMap f.name with
  | some r =>
    let sd := statusDataOfRecord metadataType f.name r
    (mapSet acc.1 f.filePath sd, mapSet acc.2 normalizedPath ⟨env.now, sd⟩)
  | none =>
    (mapSet acc.1 f.filePath notFoundData,
     mapSet acc.2 normalizedPath ⟨env.now, notFoundData⟩)

/-- `batchGetFileOrgStatus` (176-273). -/
def batchGetFileOrgStatus (env : QueryEnv) (cache : StatusCache) (metadataType : MetadataType)
    (files : List FileReq) : BatchResult :=
  if files.isEmpty then ⟨[], cache, []⟩
  else if !env.orgConnected then
    ⟨files.foldl (fun rs f => mapSet rs f.filePath notConnectedData) [], cache, []⟩
  else
    let hitsMisses := files.foldl (batchHitStep env cache) ([], [])
    let results := hitsMisses.1
    let uncachedFiles := hitsMisses.2
    if uncachedFiles.isEmpty then ⟨results, cache, []⟩
    else
      let query := buildBatchMetadataQuery metadataType (inClauseOf (uncachedFiles.map (·.name)))
      match env.remote (Cmd.dataQuery query) with
      | .throws msg =>
        ⟨uncachedFiles.foldl (fun rs f => mapSet rs f.filePath (errorData msg)) results,
          cache, [Cmd.dataQuery query]⟩
      | .parsed data =>
        let recordMap := buildRecordMap data
        let rc := uncachedFiles.foldl (batchRecordStep env metadataType recordMap)
          (results, cache)
        ⟨rc.1, rc.2, [Cmd.dataQuery query]⟩

/-- Result of a single status call. -/
structure SingleResult where
  result : StatusData
  cache : StatusCache
  cmds : List Cmd
deriving Repr

/-- The lookup loops of 294-310: first cached entry among the candidate keys;
with `freshOnly` the entry must additionally be within TTL (a stale entry does
not stop the loop). -/
def firstCached (cache : StatusCache) (paths : List String) (freshOnly : Bool)
    (now ttl : Nat) : Option StatusData :=
  match paths with
  | [] => none
  | p :: rest =>
    match mapFind cache p with
    | some c =>
      if !freshOnly || now - c.timestamp < ttl then some c.data
      else firstCached cache rest freshOnly now ttl
    | none => firstCached cache rest freshOnly now ttl

/-- `getFileOrgStatus` (281-363). -/
def getFileOrgStatus (env : QueryEnv) (cache : StatusCache) (filePath : String)
    (preferCache : Bool) : SingleResult :=
  if !env.orgConnected then ⟨notConnectedData, cache, []⟩
  else
    let normalizedPath := normalizeStatusPath filePath
    let pathsToCheck := [filePath, normalizedPath]
    match firstCached cache pathsToCheck true env.now env.cacheTTL with
    | some d => ⟨d, cache, []⟩
    | none =>
      match (if preferCache then firstCached cache pathsToCheck false env.now env.cacheTTL
             else none) with
      | some d => ⟨d, cache, []⟩
      | none =>
        match getMetadataTypeFromPath filePath with
        | none => ⟨{ error := some "Not a Salesforce metadata file" }, cache, []⟩
        | some mi =>
          let query := buildMetadataQuery mi
          match env.remote (Cmd.dataQuery query) with
          | .throws msg => ⟨errorData msg, cache, [Cmd.dataQuery query]⟩
          | .parsed data =>
            let recs := if data.status = 0 then data.records.getD [] else []
            match recs with
            | r :: _ =>
              let sd := statusDataOfRecord mi.mdType mi.name r
              ⟨sd, mapSet cache normalizedPath ⟨env.now, sd⟩, [Cmd.dataQuery query]⟩
            | [] =>
              ⟨notFoundData, mapSet cache normalizedPath ⟨env.now, notFoundData⟩,
                [Cmd.dataQuery query]⟩

/-! ### Content normalization (`normalizeContent`, 712-717) -/

/-- Whitespace recognized by JS `trim` (the characters that occur here). -/
def isJsSpace (c : Char) : Bool := c = ' ' || c = '\t' || c = '\n' || c = '\r'

/-- First normalization step: replace every `\r\n` by `\n`, scanning left to
right without overlap. -/
def crlfToLf : List Char → List Char
  | [] => []
  | [c] => [c]
  | c1 :: c2 :: rest =>
    if c1 = '\r' ∧ c2 = '\n' then '\n' :: crlfToLf rest
    else c1 :: crlfToLf (c2 :: rest)

/-- Second step (multiline regex, one-or-more spaces/tabs before a line end):
delete any run of spaces and tabs immediately followed by a line terminator
(`\n` or `\r`) or by the end of the string. -/
def stripTrailingWS : List Char → List Char
  | [] => []
  | c :: rest =>
    let r := stripTrailingWS rest
    if c = ' ' || c = '\t' then
      match r with
      | [] => []
      | '\n' :: _ => r
      | '\r' :: _ => r
      | _ => c :: r
    else c :: r

/-- JS `String.prototype.trim`. -/
def jsTrim (l : List Char) : List Char :=
  ((l.dropWhile isJsSpace).reverse.dropWhile isJsSpace).reverse

/-- `normalizeContent` (712-717). -/
def normalizeContent (content : String) : String :=
  ⟨jsTrim (stripTrailingWS (crlfToLf content.data))⟩

/-- The content comparison of 590-593 and 820-822:
`normalizeContent(local) !== normalizeContent(org)`. -/
def contentsDiffer (localContent orgContent : String) : Bool :=
  decide (normalizeContent localContent ≠ normalizeContent orgContent)

/-! ### Content diff engine (`compareFileWithOrg`, `batchCompareFilesWithOrg`) -/

/-- An entry of a retrieve response's `result.files[]`. -/
structure RetrieveFileInfo where
  fullName : String
  filePath : String
deriving Repr, DecidableEq

/-- Parsed JSON of a retrieve response. -/
structure RetrieveData where
  status : Int
  message : Option String
  files : Option (List RetrieveFileInfo)
deriving Repr, DecidableEq

/-- Outcome of a retrieve command plus `parseJsonWithWarnings`: thrown
(timeout, process failure, no JSON found, parse failure) or parsed. -/
inductive RetrieveOutcome where
  | throws (msg : String)
  | parsed (data : RetrieveData)
deriving Repr, DecidableEq

/-- Environment of the compare functions.  File reads are modelled as total
(the compared paths exist); `findRecursive` is the `findFileRecursive`
directory-walk oracle; `dateMs` is `new Date(s).getTime()` with `none` for an
unparsable date (JS `NaN`). -/
structure CompareEnv where
  orgConnected : Bool
  now : Nat
  tmpdir : String
  remote : Cmd → RetrieveOutcome
  fsExists : String → Bool
  fsRead : String → String
  fsMtime : String → Nat
  findRecursive : String → String → Option String
  dateMs : String → Option Nat

/-- `typeToFolder` (620-627): note that `Flow` has no folder entry. -/
def typeToFolder : MetadataType → Option String
  | .ApexClass => some "classes"
  | .ApexTrigger => some "triggers"
  | .ApexPage => some "pages"
  | .ApexComponent => some "components"
  | .LightningComponentBundle => some "lwc"
  | .AuraDefinitionBundle => some "aura"
  | .Flow => none

/-- `typeToExtension` (629-634): only the four single-file types. -/
def typeToExtension : MetadataType → Option String
  | .ApexClass => some ".cls"
  | .ApexTrigger => some ".trigger"
  | .ApexPage => some ".page"
  | .ApexComponent => some ".component"
  | _ => none

/-- JS template interpolation of a possibly-`undefined` value. -/
def jsTemplate (o : Option String) : String := o.getD "undefined"

/-- `findRetrievedFile` (616-681): probe the four candidate layouts, then fall
back to the recursive search. -/
def findRetrievedFile (env : CompareEnv) (tempDir : String) (mi : MetadataInfo) :
    Option String :=
  match typeToFolder mi.mdType with
  | none => env.findRecursive tempDir mi.name
  | some folder =>
    let fileName := mi.name ++ jsTemplate (typeToExtension mi.mdType)
    let possiblePaths : List String :=
      [tempDir ++ "/" ++ folder ++ "/" ++ fileName,
       tempDir ++ "/unpackaged/" ++ folder ++ "/" ++ fileName,
       tempDir ++ "/force-app/main/default/" ++ folder ++ "/" ++ fileName,
       tempDir ++ "/main/default/" ++ folder ++ "/" ++ fileName]
    match possiblePaths.find? (fun p => env.fsExists p) with
    | some p => some p
    | none => env.findRecursive tempDir fileName

/-- Return value of `compareFileWithOrg`. -/
structure CompareResult where
  hasDifference : Bool
  isNew : Option Bool := none
  error : Option String := none
deriving Repr, DecidableEq

/-- Full outcome of a `compareFileWithOrg` call: result, updated diff cache,
scratch directories created but *not* removed by the call, commands issued. -/
structure CompareOutcome where
  result : CompareResult
  diffCache : DiffCache
  tempDirs : List String
  cmds : List Cmd
deriving Repr

/-- `compareFileWithOrg` (530-608).  The `catch` at 604-607 returns the error
without calling `cleanupTempDir`, so on the thrown-exception path the scratch
directory created at 549-550 is left behind (`tempDirs` nonempty). -/
def compareFileWithOrg (env : CompareEnv) (dc : DiffCache) (filePath : String) :
    CompareOutcome :=
  if !env.orgConnected then ⟨⟨false, none, some "Not connected to org"⟩, dc, [], []⟩
  else
    let cachedFresh := match mapFind dc filePath with
      | some cached =>
        if env.now - cached.timestamp < 60000 then some cached.hasDifference else none
      | none => none
    match cachedFresh with
    | some hd => ⟨⟨hd, none, none⟩, dc, [], []⟩
    | none =>
      match getMetadataTypeFromPath filePath with
      | none => ⟨⟨false, none, some "Not a supported metadata type"⟩, dc, [], []⟩
      | some mi =>
        let tempDir := env.tmpdir ++ "/sf-metadata-compare-" ++ toString env.now
        let metadataSpec := mi.mdType.str ++ ":" ++ mi.name
        let cmd := Cmd.retrieveCmd [metadataSpec] tempDir
        match env.remote cmd with
        | .throws msg => ⟨⟨false, none, some msg⟩, dc, [tempDir], [cmd]⟩
        | .parsed data =>
          if data.status ≠ 0 then
            if (data.message.map (fun m => containsStr m "No source-backed components")).getD
                false then
              ⟨⟨false, some true, none⟩,
                mapSet dc filePath ⟨false, none, some true, env.now⟩, [], [cmd]⟩
            else ⟨⟨false, none, some (data.message.getD "Retrieve failed")⟩, dc, [], [cmd]⟩
          else
            match findRetrievedFile env tempDir mi with
            | none => ⟨⟨false, none, some "Could not find retrieved file"⟩, dc, [], [cmd]⟩
            | some retrievedFile =>
              let hasDifference := contentsDiffer (env.fsRead filePath) (env.fsRead retrievedFile)
              ⟨⟨hasDifference, none, none⟩,
                mapSet dc filePath ⟨hasDifference, none, none, env.now⟩, [], [cmd]⟩

/-- A file handed to `batchCompareFilesWithOrg`. -/
structure BatchFileReq where
  filePath : String
  name : String
  mdType : MetadataType
deriving Repr, DecidableEq

/-- The retrieved-files map construction (801-808): index source files (not
sidecar descriptors, not empty paths) by component `fullName`. -/
def buildRetrievedFilesMap (files : List RetrieveFileInfo) : List (String × String) :=
  files.foldl (fun m fi =>
    if fi.filePath ≠ "" ∧ endsWithStr fi.filePath "-meta.xml" = false then
      mapSet m fi.fullName fi.filePath
    else m) []

/-- The per-file comparison step of `batchCompareFilesWithOrg` (813-875):
compare contents, derive `isOrgNewer` from the cached status entry only when
the contents differ, and write the diff cache through `diffCacheStore`. -/
def processBatchFile (env : CompareEnv) (statusCache : StatusCache)
    (retrievedFilesMap : List (String × String))
    (acc : List (String × Bool) × DiffCache) (file : BatchFileReq) :
    List (String × Bool) × DiffCache :=
  match mapFind retrievedFilesMap file.name with
  | some retrievedFile =>
    if env.fsExists retrievedFile && env.fsExists file.filePath then
      let hasDifference := contentsDiffer (env.fsRead file.filePath) (env.fsRead retrievedFile)
      let normalizedPath := normalizeFilePath file.filePath
      let isOrgNewer :=
        if hasDifference then
          match (mapFind statusCache normalizedPath <|> mapFind statusCache file.filePath)
              <|> mapFind statusCache file.name with
          | some cachedEntry =>
            match cachedEntry.data.lastModifiedDate with
            | some ds =>
              match env.dateMs ds with
              | some orgDate => decide (orgDate > env.fsMtime file.filePath)
              | none => false
            | none => false
          | none => false
        else false
      (mapSet acc.1 file.filePath hasDifference,
       diffCacheStore acc.2 file.filePath ⟨hasDifference, some isOrgNewer, none, env.now⟩)
    else acc
  | none => acc

/-- Outcome of one batch iteration of `batchCompareFilesWithOrg` (783-899). -/
structure BatchCompareOutcome where
  results : List (String × Bool)
  diffCache : DiffCache
  tempDirs : List String
  cmds : List Cmd
deriving Repr

/-- One iteration of the batch loop of `batchCompareFilesWithOrg` (783-899):
issue one retrieve covering the whole batch, process each file, clean up.  On
the thrown-exception path the `catch` at 897-899 only logs, so the scratch
directory leaks, exactly as in `compareFileWithOrg`. -/
def runCompareBatch (env : CompareEnv) (statusCache : StatusCache) (dc : DiffCache)
    (results : List (String × Bool)) (batch : List BatchFileReq) : BatchCompareOutcome :=
  let tempDir := env.tmpdir ++ "/sf-metadata-batch-" ++ toString env.now
  let cmd := Cmd.retrieveCmd (batch.map (fun f => f.mdType.str ++ ":" ++ f.name)) tempDir
  match env.remote cmd with
  | .throws _ => ⟨results, dc, [tempDir], [cmd]⟩
  | .parsed data =>
    if data.status = 0 ∧ data.files.isSome then
      let retrievedFilesMap := buildRetrievedFilesMap (data.files.getD [])
      let rd := batch.foldl (processBatchFile env statusCache retrievedFilesMap) (results, dc)
      ⟨rd.1, rd.2, [], [cmd]⟩
    else ⟨results, dc, [], [cmd]⟩

/-! ### Connection check: single-flight machine (`checkOrgConnection`, 43-140) -/

/-- The state read and written by `checkOrgConnection`: the connection cache
fields, the `pendingOrgConnectionCheck` slot (an operation id in place of the
JS promise), a fresh-id counter, and the set of spawned-but-unsettled
`sf org display` operations. -/
structure ConnMachine where
  lastChecked : Option Nat
  connected : Bool
  pending : Option Nat
  nextOp : Nat
  inFlight : List Nat
deriving Repr, DecidableEq

/-- How a call returns before reaching the remote: CLI missing, fresh cache,
joining the pending operation, or spawning a new one. -/
inductive ArriveOutcome where
  | cliMissing
  | cachedResult (connected : Bool)
  | joined (op : Nat)
  | spawned (op : Nat)
deriving Repr, DecidableEq

/-- The slow path of 64-70: join the pending operation if present, else spawn
a new one and store it in the pending slot. -/
def connArriveSlow (st : ConnMachine) : ArriveOutcome × ConnMachine :=
  match st.pending with
  | some p => (.joined p, st)
  | none =>
    (.spawned st.nextOp,
      { st with pending := some st.nextOp, nextOp := st.nextOp + 1,
                inFlight := st.inFlight ++ [st.nextOp] })

/-- A call to `checkOrgConnection` (43-70) up to its first suspension:
the `getCachedCliStatus().installed === false` guard, the 5-minute cache
window, then the single-flight logic. -/
def connArrive (st : ConnMachine) (now : Nat) (cliInstalled : Option Bool) :
    ArriveOutcome × ConnMachine :=
  if cliInstalled = some false then (.cliMissing, st)
  else
    match st.lastChecked with
    | some t => if now - t < 300000 then (.cachedResult st.connected, st) else connArriveSlow st
    | none => connArriveSlow st

/-- Settlement of the in-flight operation: the async body writes
`orgConnectionCache` (78-128) and the `finally` at 137-139 clears the pending
slot. -/
def connSettle (st : ConnMachine) (connected : Bool) (now : Nat) : ConnMachine :=
  match st.pending with
  | some p =>
    { st with lastChecked := some now, connected := connected,
              pending := none, inFlight := st.inFlight.filter (· ≠ p) }
  | none => st

inductive ConnEvent where
  | arrive (now : Nat) (cliInstalled : Option Bool)
  | settle (connected : Bool) (now : Nat)
deriving Repr, DecidableEq

def connStep (st : ConnMachine) : ConnEvent → ConnMachine
  | .arrive now cli => (connArrive st now cli).2
  | .settle c now => connSettle st c now

/-- The module-initial state (15-25). -/
def connInit : ConnMachine := ⟨none, false, none, 0, []⟩

def connRun (tr : List ConnEvent) : ConnMachine := tr.foldl connStep connInit

/-- The in-flight operations are exactly the content of the pending slot. -/
def ConnInvariant (st : ConnMachine) : Prop := st.inFlight = st.pending.toList

/-- The 5-minute cache window does not apply at `now`. -/
def staleAt (st : ConnMachine) (now : Nat) : Prop :=
  ∀ t, st.lastChecked = some t → ¬ now - t < 300000

/-! ### Decoration decision logic (`file-decorations.js`) -/

/-- `SALESFORCE_PATHS` (constants.js). -/
def SALESFORCE_PATHS : List String :=
  ["/classes/", "/triggers/", "/lwc/", "/aura/", "/pages/", "/components/", "/flows/"]

/-- `SALESFORCE_EXTENSIONS` (constants.js). -/
def SALESFORCE_EXTENSIONS : List String :=
  [".cls", ".cls-meta.xml", ".trigger", ".trigger-meta.xml", ".page", ".page-meta.xml",
   ".component", ".component-meta.xml", ".js", ".js-meta.xml", ".html", ".css"]

/-- `_isSalesforceFile` (581-588). -/
def isSalesforceFile (filePath : String) : Bool :=
  if filePath = "" then false
  else
    SALESFORCE_PATHS.any (fun p => containsStr filePath p) &&
    SALESFORCE_EXTENSIONS.any (fun e => endsWithStr filePath e)

/-- The four decorations the provider can build (518-552), by badge. -/
inductive Decoration where
  | newFile | orgNewer | localChanges | inSync
deriving Repr, DecidableEq

/-- `_decorationCache` entry. -/
structure DecoCacheEntry where
  timestamp : Nat
  decoration : Decoration
deriving Repr, DecidableEq

/-- `_getParentFilePath` (571-574). -/
def getParentFilePath (filePath : String) : String :=
  if endsWithStr filePath "-meta.xml" then replaceFirstStr filePath "-meta.xml" "" else filePath

/-- The `_decorationCache` probe of 497-500. -/
def decoCacheHit (decoCache : List (String × DecoCacheEntry)) (parentFilePath : String)
    (now : Nat) : Option Decoration :=
  match mapFind decoCache parentFilePath with
  | some c => if now - c.timestamp < 60000 then some c.decoration else none
  | none => none

/-- The fresh decoration decision of 502-553.  The JS
`getFileDiffStatus(filePath) || getFileDiffStatus(parentFilePath)` always
short-circuits on the first call, which returns a (truthy) object. -/
def freshDecoration (env : QueryEnv) (connSnapshot : ConnSnapshot)
    (statusCache : StatusCache) (dc : DiffCache) (filePath parentFilePath : String) :
    Option Decoration :=
  if !connSnapshot.connected then none
  else
    let diffStatus := getFileDiffStatus dc filePath
    let fileStatus := (getFileOrgStatus env statusCache parentFilePath true).result
    if fileStatus.error = some "Component not found in org" then some .newFile
    else if fileStatus.error.isSome then none
    else if diffStatus.hasDifference && diffStatus.isOrgNewer then some .orgNewer
    else if diffStatus.hasDifference then some .localChanges
    else if diffStatus.isCompared && fileStatus.lastModifiedBy.isSome then some .inSync
    else none

/-- The decision logic of `provideFileDecoration` (479-564), pure over the
tracker caches; decorations are abstracted to their four kinds. -/
def provideFileDecoration (showFileDecorations : Bool) (env : QueryEnv)
    (connSnapshot : ConnSnapshot) (decoCache : List (String × DecoCacheEntry))
    (statusCache : StatusCache) (dc : DiffCache) (now : Nat) (filePath : String) :
    Option Decoration :=
  if !showFileDecorations then none
  else if !isSalesforceFile filePath then none
  else
    let parentFilePath := getParentFilePath filePath
    match decoCacheHit decoCache parentFilePath now with
    | some d => some d
    | none => freshDecoration env connSnapshot statusCache dc filePath parentFilePath

/-! ### Helper lemmas -/

theorem mapFind_diffCacheStore_self (dc : DiffCache) (p : String) (e : DiffEntry) :
    mapFind (diffCacheStore dc p e) p = some e := by
  unfold diffCacheStore
  by_cases h : normalizeFilePath p ≠ p
  · rw [if_pos h]; exact mapFind_mapSet_self _ _ _
  · rw [if_neg h]
    push_neg at h
    rw [h]
    exact mapFind_mapSet_self _ _ _

theorem mapFind_diffCacheStore_norm (dc : DiffCache) (p : String) (e : DiffEntry) :
    mapFind (diffCacheStore dc p e) (normalizeFilePath p) = some e := by
  unfold diffCacheStore
  by_cases h : normalizeFilePath p ≠ p
  · rw [if_pos h, mapFind_mapSet_ne _ _ _ _ h]
    exact mapFind_mapSet_self _ _ _
  · rw [if_neg h]
    exact mapFind_mapSet_self _ _ _

/-- Folding `mapSet` writes does not disturb an untouched key. -/
theorem foldl_mapSet_preserves {α β : Type} (key : β → String) (val : β → α)
    (L : List β) (init : List (String × α)) (k : String)
    (h : ∀ x ∈ L, key x ≠ k) :
    mapFind (L.foldl (fun m x => mapSet m (key x) (val x)) init) k = mapFind init k := by
  induction L generalizing init with
  | nil => rfl
  | cons a L ih =>
    have ha : key a ≠ k := h a (List.mem_cons_self a L)
    have hL : ∀ x ∈ L, key x ≠ k := fun x hx => h x (List.mem_cons_of_mem a hx)
    simp only [List.foldl_cons]
    rw [ih _ hL, mapFind_mapSet_ne _ _ _ _ (Ne.symm ha)]

/-- Folding `mapSet` writes over pairwise-distinct keys stores each value. -/
theorem foldl_mapSet_mem {α β : Type} (key : β → String) (val : β → α)
    (L : List β) (init : List (String × α)) (b : β) (hb : b ∈ L)
    (hnd : L.Pairwise (fun x y => key x ≠ key y)) :
    mapFind (L.foldl (fun m x => mapSet m (key x) (val x)) init) (key b) = some (val b) := by
  induction L generalizing init with
  | nil => cases hb
  | cons a L ih =>
    rcases List.mem_cons.mp hb with hba | hbL
    · subst hba
      have hrest : ∀ x ∈ L, key x ≠ key b := by
        intro x hx
        exact (List.pairwise_cons.mp hnd).1 x hx |>.symm
      simp only [List.foldl_cons]
      rw [foldl_mapSet_preserves key val L _ _ hrest, mapFind_mapSet_self]
    · simp only [List.foldl_cons]
      exact ih _ hbL ((List.pairwise_cons.mp hnd).2)

/-- Splitting a fold over a pair whose components evolve independently. -/
theorem foldl_pair_split {α β γ : Type} (f : α → γ → α) (g : β → γ → β)
    (L : List γ) (a : α) (b : β) :
    L.foldl (fun p x => (f p.1 x, g p.2 x)) (a, b) = (L.foldl f a, L.foldl g b) := by
  induction L generalizing a b with
  | nil => rfl
  | cons c L ih => simp only [List.foldl_cons]; exact ih (f a c) (g b c)

/-! ### C10 — `clearOrgCache` frame effect -/

/-- C10: after `clearOrgCache()`, `getCachedOrgConnection()` reports the
disconnected empty state, every metadata-status lookup is a cache miss, and
the diff-result cache — hence `getFileDiffStatus` — is completely unchanged. -/
theorem clearOrgCache_resets_status_keeps_diff (st : TrackerState) :
    getCachedOrgConnection (clearOrgCache st) = ⟨false, none, none⟩ ∧
    (∀ k : String, mapFind (clearOrgCache st).sourceStatusCache k = none) ∧
    (clearOrgCache st).fileDiffCache = st.fileDiffCache ∧
    (∀ p : String, getFileDiffStatus (clearOrgCache st).fileDiffCache p =
      getFileDiffStatus st.fileDiffCache p) :=
  ⟨rfl, fun _ => rfl, rfl, fun _ => rfl⟩

/-! ### C2 — connection check is single-flight -/

theorem connArriveSlow_invariant (st : ConnMachine) (h : ConnInvariant st) :
    ConnInvariant (connArriveSlow st).2 := by
  unfold ConnInvariant at *
  cases hp : st.pending with
  | some p => simpa [connArriveSlow, hp] using h
  | none =>
    rw [hp] at h
    simp only [Option.toList_none] at h
    simp [connArriveSlow, hp, h]

theorem connSettle_invariant (st : ConnMachine) (c : Bool) (now : Nat)
    (h : ConnInvariant st) : ConnInvariant (connSettle st c now) := by
  unfold ConnInvariant at *
  cases hp : st.pending with
  | some p =>
    rw [hp] at h
    simp only [Option.toList_some] at h
    simp [connSettle, hp, h]
  | none => simpa [connSettle, hp] using h

theorem connStep_invariant (st : ConnMachine) (e : ConnEvent)
    (h : ConnInvariant st) : ConnInvariant (connStep st e) := by
  cases e with
  | arrive now cli =>
    simp only [connStep, connArrive]
    by_cases hc : cli = some false
    · simpa [hc] using h
    · rw [if_neg hc]
      cases hlc : st.lastChecked with
      | some t =>
        by_cases hf : now - t < 300000
        · simpa [hf] using h
        · simpa [hf] using connArriveSlow_invariant st h
      | none => exact connArriveSlow_invariant st h
  | settle c now => exact connSettle_invariant st c now h

theorem connRun_invariant (tr : List ConnEvent) : ConnInvariant (connRun tr) := by
  have main : ∀ (l : List ConnEvent) (st : ConnMachine), ConnInvariant st →
      ConnInvariant (l.foldl connStep st) := by
    intro l
    induction l with
    | nil => exact fun st h => h
    | cons e l ih => exact fun st h => ih _ (connStep_invariant st e h)
  exact main tr connInit rfl

/-- C2: the connection check is single-flight.  (1) In every state reachable
from the module-initial state, at most one `sf org display` operation is in
flight.  (2) A call arriving while the pending slot holds operation `p` (CLI
not known-missing, cache window expired) joins `p`: it returns the pending
operation's result and changes nothing — in particular it spawns no second
remote command.  (3) Settlement of the shared operation always clears the
pending slot. -/
theorem checkOrgConnection_single_flight :
    (∀ tr : List ConnEvent, (connRun tr).inFlight.length ≤ 1) ∧
    (∀ (st : ConnMachine) (now : Nat) (cli : Option Bool) (p : Nat),
      st.pending = some p → cli ≠ some false → staleAt st now →
      connArrive st now cli = (.joined p, st)) ∧
    (∀ (st : ConnMachine) (c : Bool) (now : Nat), (connSettle st c now).pending = none) := by
  refine ⟨fun tr => ?_, fun st now cli p hp hcli hstale => ?_, fun st c now => ?_⟩
  · have h := connRun_invariant tr
    rw [ConnInvariant] at h
    rw [h]
    cases (connRun tr).pending <;> simp
  · unfold connArrive
    rw [if_neg hcli]
    cases hlc : st.lastChecked with
    | some t => simp [hstale t hlc, connArriveSlow, hp]
    | none => simp [connArriveSlow, hp]
  · unfold connSettle
    cases hp : st.pending <;> simp [hp]

/-- Witness for C2 at a concrete state: with operation `5` pending and a stale
cache, an arriving call joins operation `5` without spawning. -/
theorem checkOrgConnection_single_flight_witness :
    connArrive ⟨some 0, false, some 5, 6, [5]⟩ 400000 (some true) =
      (.joined 5, ⟨some 0, false, some 5, 6, [5]⟩) ∧
    (connSettle ⟨some 0, false, some 5, 6, [5]⟩ true 400000).pending = none := by
  constructor
  · exact checkOrgConnection_single_flight.2.1 _ 400000 (some true) 5 rfl (by decide)
      (by intro t ht; injection ht with h; omega)
  · exact checkOrgConnection_single_flight.2.2 _ true 400000

/-! ### C7 — `isOrgNewer` derivation policy -/

/-- C7: in the batch compare, the produced diff entry's `isOrgNewer` flag is
`false` whenever the normalized contents agree; when they differ and a cached
status entry with a parsable `lastModifiedDate` exists, it is true exactly
when that remote date is strictly later than the local file's modification
time; and when no cached entry, no cached date, or an unparsable date is
available it defaults to `false` (the file is classified as locally changed). -/
theorem batchCompare_isOrgNewer_policy
    (env : CompareEnv) (statusCache : StatusCache)
    (retrievedFilesMap : List (String × String))
    (acc : List (String × Bool) × DiffCache) (file : BatchFileReq) (rf : String)
    (hrf : mapFind retrievedFilesMap file.name = some rf)
    (hex1 : env.fsExists rf = true) (hex2 : env.fsExists file.filePath = true) :
    ∃ ion : Bool,
      mapFind (processBatchFile env statusCache retrievedFilesMap acc file).2
          (normalizeFilePath file.filePath) =
        some ⟨contentsDiffer (env.fsRead file.filePath) (env.fsRead rf), some ion, none,
          env.now⟩ ∧
      (contentsDiffer (env.fsRead file.filePath) (env.fsRead rf) = false → ion = false) ∧
      (∀ ce ds d,
        ((mapFind statusCache (normalizeFilePath file.filePath) <|>
            mapFind statusCache file.filePath) <|> mapFind statusCache file.name) = some ce →
        ce.data.lastModifiedDate = some ds → env.dateMs ds = some d →
        ion = (contentsDiffer (env.fsRead file.filePath) (env.fsRead rf) &&
               decide (d > env.fsMtime file.filePath))) ∧
      (((mapFind statusCache (normalizeFilePath file.filePath) <|>
            mapFind statusCache file.filePath) <|> mapFind statusCache file.name) = none →
        ion = false) ∧
      (∀ ce,
        ((mapFind statusCache (normalizeFilePath file.filePath) <|>
            mapFind statusCache file.filePath) <|> mapFind statusCache file.name) = some ce →
        ce.data.lastModifiedDate = none → ion = false) ∧
      (∀ ce ds,
        ((mapFind statusCache (normalizeFilePath file.filePath) <|>
            mapFind statusCache file.filePath) <|> mapFind statusCache file.name) = some ce →
        ce.data.lastModifiedDate = some ds → env.dateMs ds = none → ion = false) := by
  have hProc : processBatchFile env statusCache retrievedFilesMap acc file =
      (mapSet acc.1 file.filePath
        (contentsDiffer (env.fsRead file.filePath) (env.fsRead rf)),
       diffCacheStore acc.2 file.filePath
        ⟨contentsDiffer (env.fsRead file.filePath) (env.fsRead rf),
         some (if contentsDiffer (env.fsRead file.filePath) (env.fsRead rf) then
            match (mapFind statusCache (normalizeFilePath file.filePath) <|>
                mapFind statusCache file.filePath) <|> mapFind statusCache file.name with
            | some cachedEntry =>
              match cachedEntry.data.lastModifiedDate with
              | some ds =>
                match env.dateMs ds with
                | some orgDate => decide (orgDate > env.fsMtime file.filePath)
                | none => false
              | none => false
            | none => false
          else false), none, env.now⟩) := by
    unfold processBatchFile
    rw [hrf]
    simp only [hex1, hex2, Bool.and_self, if_true]
  refine ⟨(if contentsDiffer (env.fsRead file.filePath) (env.fsRead rf) = true then
      match (mapFind statusCache (normalizeFilePath file.filePath) <|>
          mapFind statusCache file.filePath) <|> mapFind statusCache file.name with
      | some cachedEntry =>
        match cachedEntry.data.lastModifiedDate with
        | some ds =>
          match env.dateMs ds with
          | some orgDate => decide (orgDate > env.fsMtime file.filePath)
          | none => false
        | none => false
      | none => false
    else false), ?_, ?_, ?_, ?_, ?_, ?_⟩
  · rw [hProc]
    exact mapFind_diffCacheStore_norm _ _ _
  · intro h; simp [h]
  · intro ce ds d hce hds hdd
    by_cases hd : contentsDiffer (env.fsRead file.filePath) (env.fsRead rf) = true
    · simp only [hd, if_true, hce, hds, hdd, Bool.true_and]
    · have hd' : contentsDiffer (env.fsRead file.filePath) (env.fsRead rf) = false := by
        revert hd; cases contentsDiffer (env.fsRead file.filePath) (env.fsRead rf) <;> simp
      simp [hd']
  · intro hce
    by_cases hd : contentsDiffer (env.fsRead file.filePath) (env.fsRead rf) = true
    · simp only [hd, if_true, hce]
    · have hd' : contentsDiffer (env.fsRead file.filePath) (env.fsRead rf) = false := by
        revert hd; cases contentsDiffer (env.fsRead file.filePath) (env.fsRead rf) <;> simp
      simp [hd']
  · intro ce hce hds
    by_cases hd : contentsDiffer (env.fsRead file.filePath) (env.fsRead rf) = true
    · simp only [hd, if_true, hce, hds]
    · have hd' : contentsDiffer (env.fsRead file.filePath) (env.fsRead rf) = false := by
        revert hd; cases contentsDiffer (env.fsRead file.filePath) (env.fsRead rf) <;> simp
      simp [hd']
  · intro ce ds hce hds hdd
    by_cases hd : contentsDiffer (env.fsRead file.filePath) (env.fsRead rf) = true
    · simp only [hd, if_true, hce, hds, hdd]
    · have hd' : contentsDiffer (env.fsRead file.filePath) (env.fsRead rf) = false := by
        revert hd; cases contentsDiffer (env.fsRead file.filePath) (env.fsRead rf) <;> simp
      simp [hd']

/-- Witness for C7: a concrete batch file whose contents match the retrieved
copy; the stored entry records no difference and `isOrgNewer = false`. -/
theorem batchCompare_isOrgNewer_policy_witness :
    mapFind (processBatchFile
        ⟨true, 1000, "/tmp", fun _ => .throws "x", fun _ => true, fun _ => "a",
          fun _ => 0, fun _ _ => none, fun _ => none⟩
        [] [("Acc", "/t/classes/Acc.cls")] ([], [])
        ⟨"/ws/classes/Acc.cls", "Acc", .ApexClass⟩).2
      (normalizeFilePath "/ws/classes/Acc.cls") = some ⟨false, some false, none, 1000⟩ := by
  obtain ⟨ion, h1, h2, -, -, -, -⟩ := batchCompare_isOrgNewer_policy
    ⟨true, 1000, "/tmp", fun _ => .throws "x", fun _ => true, fun _ => "a",
      fun _ => 0, fun _ _ => none, fun _ => none⟩
    [] [("Acc", "/t/classes/Acc.cls")] ([], [])
    ⟨"/ws/classes/Acc.cls", "Acc", .ApexClass⟩ "/t/classes/Acc.cls" rfl rfl rfl
  have hz : ion = false := h2 (by decide)
  rw [hz] at h1
  have hc : contentsDiffer "a" "a" = false := by decide
  simpa [hc] using h1

/-! ### C8 — normalization-insensitive comparison -/

theorem crlfToLf_two (l : List Char) : crlfToLf ('\r' :: '\n' :: l) = '\n' :: crlfToLf l := by
  simp [crlfToLf]

theorem crlfToLf_cons_ne (c : Char) (l : List Char) (hc : c ≠ '\r') :
    crlfToLf (c :: l) = c :: crlfToLf l := by
  cases l with
  | nil => rfl
  | cons c2 r => simp [crlfToLf, hc]

theorem crlfToLf_id (l : List Char) (h : '\r' ∉ l) : crlfToLf l = l := by
  induction l with
  | nil => rfl
  | cons c rest ih =>
    have hc : c ≠ '\r' := fun e => h (e ▸ List.mem_cons_self c rest)
    rw [crlfToLf_cons_ne c rest hc, ih (fun hm => h (List.mem_cons_of_mem c hm))]

/-- Replace every `\n` by `\r\n` — the CRLF rendering of an LF text, used to
state insensitivity to line-ending style. -/
def lfToCrlf : List Char → List Char
  | [] => []
  | c :: rest => if c = '\n' then '\r' :: '\n' :: lfToCrlf rest else c :: lfToCrlf rest

theorem crlfToLf_lfToCrlf (l : List Char) (h : '\r' ∉ l) :
    crlfToLf (lfToCrlf l) = l := by
  induction l with
  | nil => rfl
  | cons c rest ih =>
    have hc : c ≠ '\r' := fun e => h (e ▸ List.mem_cons_self c rest)
    have hrest : '\r' ∉ rest := fun hm => h (List.mem_cons_of_mem c hm)
    by_cases hn : c = '\n'
    · subst hn
      rw [show lfToCrlf ('\n' :: rest) = '\r' :: '\n' :: lfToCrlf rest from by simp [lfToCrlf]]
      rw [crlfToLf_two, ih hrest]
    · rw [show lfToCrlf (c :: rest) = c :: lfToCrlf rest from by simp [lfToCrlf, hn]]
      rw [crlfToLf_cons_ne c _ hc, ih hrest]

theorem stripTrailingWS_nl (l : List Char) :
    stripTrailingWS ('\n' :: l) = '\n' :: stripTrailingWS l := by
  simp [stripTrailingWS]

theorem stripTrailingWS_allWS (p : List Char) (h : ∀ c ∈ p, c = ' ' ∨ c = '\t') :
    stripTrailingWS p = [] := by
  induction p with
  | nil => rfl
  | cons c p ih =>
    have hc : (c = ' ' || c = '\t') = true := by
      rcases h c (List.mem_cons_self c p) with h1 | h1 <;> simp [h1]
    have hp := fun d hd => h d (List.mem_cons_of_mem c hd)
    simp [stripTrailingWS, hc, ih hp]

theorem stripTrailingWS_ws_before_nl (p l : List Char)
    (h : ∀ c ∈ p, c = ' ' ∨ c = '\t') :
    stripTrailingWS (p ++ '\n' :: l) = '\n' :: stripTrailingWS l := by
  induction p with
  | nil => simpa using stripTrailingWS_nl l
  | cons c p ih =>
    have hc : (c = ' ' || c = '\t') = true := by
      rcases h c (List.mem_cons_self c p) with h1 | h1 <;> simp [h1]
    have hp := fun d hd => h d (List.mem_cons_of_mem c hd)
    simp [stripTrailingWS, hc, ih hp]

theorem stripTrailingWS_append_ws (a p : List Char)
    (h : ∀ c ∈ p, c = ' ' ∨ c = '\t') :
    stripTrailingWS (a ++ p) = stripTrailingWS a := by
  induction a with
  | nil => simpa using stripTrailingWS_allWS p h
  | cons c a ih => simp only [List.cons_append, stripTrailingWS, List.append_eq, ih]

theorem stripTrailingWS_mid_ws (a p b : List Char)
    (h : ∀ c ∈ p, c = ' ' ∨ c = '\t') :
    stripTrailingWS (a ++ p ++ '\n' :: b) = stripTrailingWS (a ++ '\n' :: b) := by
  induction a with
  | nil => simp [stripTrailingWS_ws_before_nl p b h, stripTrailingWS_nl]
  | cons c a ih => simp only [List.cons_append, stripTrailingWS, List.append_eq, ih]

/-- C8: the content comparison used by the compare functions reports no
difference whenever the two contents normalize identically; moreover
normalization (CRLF to LF, per-line trailing-whitespace strip, overall trim)
is insensitive to line-ending style, to trailing whitespace inserted before
a newline, and to trailing whitespace at the end of the text — so texts
differing only in these ways never compare as different. -/
theorem normalization_insensitive_comparison :
    (∀ l o : String, normalizeContent l = normalizeContent o → contentsDiffer l o = false) ∧
    (∀ t : String, '\r' ∉ t.data → normalizeContent ⟨lfToCrlf t.data⟩ = normalizeContent t) ∧
    (∀ a p b : List Char, '\r' ∉ a → '\r' ∉ b → (∀ c ∈ p, c = ' ' ∨ c = '\t') →
      normalizeContent ⟨a ++ p ++ '\n' :: b⟩ = normalizeContent ⟨a ++ '\n' :: b⟩) ∧
    (∀ a p : List Char, '\r' ∉ a → (∀ c ∈ p, c = ' ' ∨ c = '\t') →
      normalizeContent ⟨a ++ p⟩ = normalizeContent ⟨a⟩) := by
  have ws_no_cr : ∀ (p : List Char), (∀ c ∈ p, c = ' ' ∨ c = '\t') → '\r' ∉ p := by
    intro p hp hm
    rcases hp _ hm with h1 | h1 <;> exact absurd h1 (by decide)
  refine ⟨?_, ?_, ?_, ?_⟩
  · intro l o h
    simp [contentsDiffer, h]
  · intro t h
    unfold normalizeContent
    rw [crlfToLf_lfToCrlf t.data h, crlfToLf_id t.data h]
  · intro a p b ha hb hp
    have hcr1 : '\r' ∉ a ++ p ++ '\n' :: b := by
      intro hm
      rcases List.mem_append.mp hm with hm | hm
      · rcases List.mem_append.mp hm with hm | hm
        · exact ha hm
        · exact ws_no_cr p hp hm
      · rcases List.mem_cons.mp hm with hm | hm
        · exact absurd hm (by decide)
        · exact hb hm
    have hcr2 : '\r' ∉ a ++ '\n' :: b := by
      intro hm
      rcases List.mem_append.mp hm with hm | hm
      · exact ha hm
      · rcases List.mem_cons.mp hm with hm | hm
        · exact absurd hm (by decide)
        · exact hb hm
    unfold normalizeContent
    rw [crlfToLf_id _ hcr1, crlfToLf_id _ hcr2, stripTrailingWS_mid_ws a p b hp]
  · intro a p ha hp
    have hcr1 : '\r' ∉ a ++ p := by
      intro hm
      rcases List.mem_append.mp hm with hm | hm
      · exact ha hm
      · exact ws_no_cr p hp hm
    unfold normalizeContent
    rw [crlfToLf_id _ hcr1, crlfToLf_id a ha, stripTrailingWS_append_ws a p hp]

/-- Witness for C8 at concrete texts: identical text compares equal; a CRLF
rendering and a trailing space before a newline do not change the normalized
form. -/
theorem normalization_insensitive_comparison_witness :
    contentsDiffer "a b" "a b" = false ∧
    normalizeContent ⟨lfToCrlf "x\ny".data⟩ = normalizeContent "x\ny" ∧
    normalizeContent ⟨"ab".data ++ [' '] ++ '\n' :: "c".data⟩ =
      normalizeContent ⟨"ab".data ++ '\n' :: "c".data⟩ ∧
    normalizeContent ⟨"ab".data ++ [' ', '\t']⟩ = normalizeContent ⟨"ab".data⟩ := by
  refine ⟨normalization_insensitive_comparison.1 "a b" "a b" rfl,
    normalization_insensitive_comparison.2.1 "x\ny" (by decide),
    normalization_insensitive_comparison.2.2.1 "ab".data [' '] "c".data (by decide) (by decide)
      (by decide),
    normalization_insensitive_comparison.2.2.2 "ab".data [' ', '\t'] (by decide) (by decide)⟩

/-! ### C6 — `preferCache` never queries -/

/-- Any value returned by the cache-probe loops comes from a cached entry
under one of the candidate keys. -/
theorem firstCached_sound (cache : StatusCache) (paths : List String) (fo : Bool)
    (now ttl : Nat) (d : StatusData)
    (h : firstCached cache paths fo now ttl = some d) :
    ∃ k ∈ paths, ∃ c, mapFind cache k = some c ∧ d = c.data := by
  induction paths with
  | nil => exact absurd h (by simp [firstCached])
  | cons p rest ih =>
    simp only [firstCached] at h
    split at h
    next c hm =>
      split at h
      · exact ⟨p, List.mem_cons_self p rest, c, hm, (Option.some.inj h).symm⟩
      · obtain ⟨k, hk, c', hc', hd⟩ := ih h
        exact ⟨k, List.mem_cons_of_mem p hk, c', hc', hd⟩
    next hm =>
      obtain ⟨k, hk, c', hc', hd⟩ := ih h
      exact ⟨k, List.mem_cons_of_mem p hk, c', hc', hd⟩

/-- With `freshOnly = false` (the `preferCache` loop), any cached entry under
either candidate key produces a hit. -/
theorem firstCached_false_isSome (cache : StatusCache) (p1 p2 : String) (now ttl : Nat)
    (h : (mapFind cache p1).isSome ∨ (mapFind cache p2).isSome) :
    (firstCached cache [p1, p2] false now ttl).isSome := by
  rcases h with h | h
  · obtain ⟨c, hc⟩ := Option.isSome_iff_exists.mp h
    simp [firstCached, hc]
  · cases hm : mapFind cache p1 with
    | some c => simp [firstCached, hm]
    | none =>
      obtain ⟨c, hc⟩ := Option.isSome_iff_exists.mp h
      simp [firstCached, hm, hc]

/-- C6: a `getFileOrgStatus(path, preferCache=true)` call while connected, for
a path with any cached entry (raw or normalized key, of any age), issues no
remote query, leaves the status cache unchanged, and returns one of the
cached entries for the path. -/
theorem getFileOrgStatus_preferCache_no_query (env : QueryEnv) (cache : StatusCache)
    (filePath : String)
    (hconn : env.orgConnected = true)
    (hcached : (mapFind cache filePath).isSome ∨
      (mapFind cache (normalizeStatusPath filePath)).isSome) :
    (getFileOrgStatus env cache filePath true).cmds = [] ∧
    (getFileOrgStatus env cache filePath true).cache = cache ∧
    (∃ k ∈ [filePath, normalizeStatusPath filePath], ∃ c,
      mapFind cache k = some c ∧
      (getFileOrgStatus env cache filePath true).result = c.data) := by
  cases h1 : firstCached cache [filePath, normalizeStatusPath filePath] true env.now
      env.cacheTTL with
  | some d =>
    have hres : getFileOrgStatus env cache filePath true = ⟨d, cache, []⟩ := by
      simp [getFileOrgStatus, hconn, h1]
    obtain ⟨k, hk, c, hc, hd⟩ :=
      firstCached_sound cache [filePath, normalizeStatusPath filePath] true env.now
        env.cacheTTL d h1
    exact ⟨by rw [hres], by rw [hres], k, hk, c, hc, by rw [hres]; exact hd⟩
  | none =>
    obtain ⟨d, h2⟩ := Option.isSome_iff_exists.mp
      (firstCached_false_isSome cache filePath (normalizeStatusPath filePath) env.now
        env.cacheTTL hcached)
    have hres : getFileOrgStatus env cache filePath true = ⟨d, cache, []⟩ := by
      simp [getFileOrgStatus, hconn, h1, h2]
    obtain ⟨k, hk, c, hc, hd⟩ :=
      firstCached_sound cache [filePath, normalizeStatusPath filePath] false env.now
        env.cacheTTL d h2
    exact ⟨by rw [hres], by rw [hres], k, hk, c, hc, by rw [hres]; exact hd⟩

/-- Witness for C6: a stale cached entry (written at 0, queried at 999999 with
TTL 60000) is still returned under `preferCache` and no command is issued. -/
theorem getFileOrgStatus_preferCache_no_query_witness :
    (getFileOrgStatus ⟨true, 999999, 60000, fun _ => .throws "x"⟩
        [("A.cls", ⟨0, notFoundData⟩)] "A.cls" true).cmds = [] ∧
    (getFileOrgStatus ⟨true, 999999, 60000, fun _ => .throws "x"⟩
        [("A.cls", ⟨0, notFoundData⟩)] "A.cls" true).result = notFoundData := by
  obtain ⟨hcmds, -, k, hk, c, hc, hres⟩ :=
    getFileOrgStatus_preferCache_no_query ⟨true, 999999, 60000, fun _ => .throws "x"⟩
      [("A.cls", ⟨0, notFoundData⟩)] "A.cls" rfl (Or.inl (by decide))
  refine ⟨hcmds, ?_⟩
  have hnorm : normalizeStatusPath "A.cls" = "A.cls" := rfl
  rw [hnorm] at hk
  have hkA : k = "A.cls" := by
    rcases List.mem_cons.mp hk with h | h
    · exact h
    · rcases List.mem_cons.mp h with h | h
      · exact h
      · cases h
  rw [hkA] at hc
  rw [show mapFind [("A.cls", (⟨0, notFoundData⟩ : CacheEntry))] "A.cls" =
      some ⟨0, notFoundData⟩ from rfl] at hc
  rw [hres, ← Option.some.inj hc]

/-! ### C9 — NotFound is cached, transient failures are not -/

/-- The batch cache probe for `f` misses: no entry, or the entry is out of TTL. -/
def isBatchMiss (env : QueryEnv) (cache : StatusCache) (f : FileReq) : Prop :=
  ∀ c, batchCacheLookup cache f = some c → ¬ env.now - c.timestamp < env.cacheTTL

/-- When every requested file misses, the partition loop keeps all files as
uncached and produces no hit results. -/
theorem batchHitStep_all_miss (env : QueryEnv) (cache : StatusCache) (files : List FileReq)
    (rs : List (String × StatusData)) (uc : List FileReq)
    (h : ∀ f ∈ files, isBatchMiss env cache f) :
    files.foldl (batchHitStep env cache) (rs, uc) = (rs, uc ++ files) := by
  induction files generalizing uc with
  | nil => simp
  | cons f fs ih =>
    have hf := h f (List.mem_cons_self f fs)
    have hfs : ∀ g ∈ fs, isBatchMiss env cache g :=
      fun g hg => h g (List.mem_cons_of_mem f hg)
    have hstep : batchHitStep env cache (rs, uc) f = (rs, uc ++ [f]) := by
      unfold batchHitStep
      cases hl : batchCacheLookup cache f with
      | some c => simp [hf c hl]
      | none => simp
    rw [List.foldl_cons, hstep, ih (uc ++ [f]) hfs]
    simp

/-- C9: with the org connected and a full cache miss for `filePath`
(classifiable as `mi`): (a) a parsed query response with `status = 0` and no
records yields the `Component not found in org` entry *and writes it to the
status cache*; (b) a thrown remote failure (timeout, process failure, parse
failure) yields an error entry, leaves the cache unchanged, and a subsequent
call under any connected environment issues the remote query again; (c) a
thrown failure during `batchGetFileOrgStatus` maps every (missed) requested
file to an error entry while leaving the cache unchanged. -/
theorem notFound_cached_transient_not_cached (env : QueryEnv) (cache : StatusCache)
    (filePath : String) (preferCache : Bool) (mi : MetadataInfo)
    (hconn : env.orgConnected = true)
    (h2 : mapFind cache filePath = none)
    (h3 : mapFind cache (normalizeStatusPath filePath) = none)
    (hmi : getMetadataTypeFromPath filePath = some mi) :
    (∀ data, env.remote (Cmd.dataQuery (buildMetadataQuery mi)) = .parsed data →
      data.status = 0 → data.records.getD [] = [] →
      (getFileOrgStatus env cache filePath preferCache).result = notFoundData ∧
      (getFileOrgStatus env cache filePath preferCache).cache =
        mapSet cache (normalizeStatusPath filePath) ⟨env.now, notFoundData⟩) ∧
    (∀ msg, env.remote (Cmd.dataQuery (buildMetadataQuery mi)) = .throws msg →
      (getFileOrgStatus env cache filePath preferCache).result = errorData msg ∧
      (getFileOrgStatus env cache filePath preferCache).cache = cache ∧
      (∀ env2 : QueryEnv, env2.orgConnected = true →
        (getFileOrgStatus env2 cache filePath preferCache).cmds =
          [Cmd.dataQuery (buildMetadataQuery mi)])) ∧
    (∀ (mt : MetadataType) (files : List FileReq) (msg : String),
      (∀ f ∈ files, isBatchMiss env cache f) →
      env.remote (Cmd.dataQuery
        (buildBatchMetadataQuery mt (inClauseOf (files.map (·.name))))) = .throws msg →
      (batchGetFileOrgStatus env cache mt files).cache = cache ∧
      (files.Pairwise (fun x y => x.filePath ≠ y.filePath) →
        ∀ f ∈ files,
          mapFind (batchGetFileOrgStatus env cache mt files).results f.filePath =
            some (errorData msg))) := by
  have hfcAny : ∀ (fo : Bool) (now ttl : Nat),
      firstCached cache [filePath, normalizeStatusPath filePath] fo now ttl = none := by
    intro fo now ttl
    simp [firstCached, h2, h3]
  refine ⟨?_, ?_, ?_⟩
  · intro data hrem hst hrec
    cases preferCache <;>
      constructor <;>
        simp [getFileOrgStatus, hconn, hfcAny, hmi, hrem, hst, hrec]
  · intro msg hrem
    refine ⟨?_, ?_, ?_⟩
    · cases preferCache <;> simp [getFileOrgStatus, hconn, hfcAny, hmi, hrem]
    · cases preferCache <;> simp [getFileOrgStatus, hconn, hfcAny, hmi, hrem]
    · intro env2 hconn2
      cases hrem2 : env2.remote (Cmd.dataQuery (buildMetadataQuery mi)) with
      | throws m2 =>
        cases preferCache <;> simp [getFileOrgStatus, hconn2, hfcAny, hmi, hrem2]
      | parsed d2 =>
        cases hrecs : (if d2.status = 0 then d2.records.getD [] else []) with
        | nil =>
          cases preferCache <;> simp [getFileOrgStatus, hconn2, hfcAny, hmi, hrem2, hrecs]
        | cons r rest =>
          cases preferCache <;> simp [getFileOrgStatus, hconn2, hfcAny, hmi, hrem2, hrecs]
  · intro mt files msg hmiss hrem
    by_cases hne : files = []
    · subst hne
      exact ⟨rfl, fun _ f hf => absurd hf (List.not_mem_nil f)⟩
    · have hfe : files.isEmpty = false := by
        cases files with
        | nil => exact absurd rfl hne
        | cons f fs => rfl
      have hr : batchGetFileOrgStatus env cache mt files =
          ⟨files.foldl (fun rs f => mapSet rs f.filePath (errorData msg)) [], cache,
            [Cmd.dataQuery
              (buildBatchMetadataQuery mt (inClauseOf (files.map (·.name))))]⟩ := by
        unfold batchGetFileOrgStatus
        rw [batchHitStep_all_miss env cache files [] [] hmiss]
        simp [hfe, hconn, hrem]
      refine ⟨by rw [hr], fun hpair f hf => ?_⟩
      rw [hr]
      exact foldl_mapSet_mem (fun g => g.filePath) (fun _ => errorData msg) files [] f hf hpair

/-- Witness for C9 at a concrete miss: the component `Acc` is absent from a
successful response, so the NotFound entry is returned and cached; under a
timeout the error is returned and the cache stays empty. -/
theorem notFound_cached_transient_not_cached_witness :
    (getFileOrgStatus ⟨true, 50, 60000,
        fun _ => .parsed ⟨0, some [], none⟩⟩ [] "/ws/classes/Acc.cls" false).cache =
      mapSet [] (normalizeStatusPath "/ws/classes/Acc.cls") ⟨50, notFoundData⟩ ∧
    (getFileOrgStatus ⟨true, 50, 60000,
        fun _ => .throws "timed out"⟩ [] "/ws/classes/Acc.cls" false).cache = [] ∧
    (getFileOrgStatus ⟨true, 50, 60000,
        fun _ => .throws "timed out"⟩ [] "/ws/classes/Acc.cls" false).result =
      errorData "timed out" := by
  refine ⟨?_, ?_, ?_⟩
  · exact (notFound_cached_transient_not_cached ⟨true, 50, 60000,
        fun _ => .parsed ⟨0, some [], none⟩⟩ [] "/ws/classes/Acc.cls" false
        ⟨.ApexClass, "Acc", "Acc"⟩ rfl rfl rfl rfl).1 ⟨0, some [], none⟩ rfl rfl rfl |>.2
  · exact ((notFound_cached_transient_not_cached ⟨true, 50, 60000,
        fun _ => .throws "timed out"⟩ [] "/ws/classes/Acc.cls" false
        ⟨.ApexClass, "Acc", "Acc"⟩ rfl rfl rfl rfl).2.1 "timed out" rfl).2.1
  · exact ((notFound_cached_transient_not_cached ⟨true, 50, 60000,
        fun _ => .throws "timed out"⟩ [] "/ws/classes/Acc.cls" false
        ⟨.ApexClass, "Acc", "Acc"⟩ rfl rfl rfl rfl).2.1 "timed out" rfl).1

/-! ### C1 — batch status: one query, complete map, NotFound backfill -/

/-- A name matched by no returned record is absent from the record map. -/
theorem recordFold_preserves (n : String) :
    ∀ (rs : List QueryRecord), (∀ r ∈ rs, recordName r ≠ some n) →
    ∀ (init : List (String × QueryRecord)), mapFind init n = none →
    mapFind (rs.foldl (fun m r =>
      match recordName r with
      | some nm => mapSet m nm r
      | none => m) init) n = none := by
  intro rs
  induction rs with
  | nil => exact fun _ init hi => hi
  | cons r rs ih =>
    intro h init hi
    have hr1 : recordName r ≠ some n := h r (List.mem_cons_self r rs)
    have hrs : ∀ x ∈ rs, recordName x ≠ some n :=
      fun x hx => h x (List.mem_cons_of_mem r hx)
    cases hrn : recordName r with
    | some nm =>
      have hnm : n ≠ nm := fun e => hr1 (by rw [hrn, e])
      simp only [List.foldl_cons, hrn]
      exact ih hrs _ (by rw [mapFind_mapSet_ne init nm n r hnm]; exact hi)
    | none =>
      simp only [List.foldl_cons, hrn]
      exact ih hrs _ hi

theorem buildRecordMap_not_mem (data : QueryData) (n : String)
    (h : ∀ r ∈ data.records.getD [], recordName r ≠ some n) :
    mapFind (buildRecordMap data) n = none := by
  unfold buildRecordMap
  by_cases hs : data.status = 0
  · rw [if_pos hs]
    cases hr : data.records with
    | none => rfl
    | some rs =>
      rw [hr] at h
      simp only [Option.getD_some] at h
      exact recordFold_preserves n rs h [] rfl
  · rw [if_neg hs]; rfl

/-- Pair fold splitting through a pointwise description of the step. -/
theorem foldl_pair_split_of {α β γ : Type} (f : α → γ → α) (g : β → γ → β)
    (F : α × β → γ → α × β) (hF : ∀ p x, F p x = (f p.1 x, g p.2 x))
    (L : List γ) (a : α) (b : β) :
    L.foldl F (a, b) = (L.foldl f a, L.foldl g b) := by
  induction L generalizing a b with
  | nil => rfl
  | cons c L ih =>
    rw [List.foldl_cons, hF, List.foldl_cons, List.foldl_cons]
    exact ih _ _

/-- C1: a connected batch call in which every requested file is a cache miss
(of the same kind `mt`) and the remote response parses issues exactly one
data-query command — the batch query built over *all* requested names — and
its result map holds an entry for every input `filePath`; every requested
file whose name matches no returned record is recorded as the terminal
`Component not found in org` entry both in the result map and in the status
cache under its normalized path. -/
theorem batchGetFileOrgStatus_single_query_complete
    (env : QueryEnv) (cache : StatusCache) (mt : MetadataType) (files : List FileReq)
    (data : QueryData)
    (hne : files ≠ [])
    (hconn : env.orgConnected = true)
    (hmiss : ∀ f ∈ files, isBatchMiss env cache f)
    (hremote : env.remote (Cmd.dataQuery (buildBatchMetadataQuery mt
      (inClauseOf (files.map (·.name))))) = .parsed data)
    (hkeys : files.Pairwise (fun x y => x.filePath ≠ y.filePath))
    (hnorm : files.Pairwise (fun x y =>
      normalizeStatusPath x.filePath ≠ normalizeStatusPath y.filePath)) :
    (batchGetFileOrgStatus env cache mt files).cmds =
      [Cmd.dataQuery (buildBatchMetadataQuery mt (inClauseOf (files.map (·.name))))] ∧
    (∀ f ∈ files,
      (mapFind (batchGetFileOrgStatus env cache mt files).results f.filePath).isSome) ∧
    (∀ f ∈ files, (∀ r ∈ data.records.getD [], recordName r ≠ some f.name) →
      mapFind (batchGetFileOrgStatus env cache mt files).results f.filePath =
        some notFoundData ∧
      mapFind (batchGetFileOrgStatus env cache mt files).cache
        (normalizeStatusPath f.filePath) = some ⟨env.now, notFoundData⟩) := by
  have hfe : files.isEmpty = false := by
    cases files with
    | nil => exact absurd rfl hne
    | cons f fs => rfl
  have hF : ∀ (p : List (String × StatusData) × StatusCache) (x : FileReq),
      batchRecordStep env mt (buildRecordMap data) p x =
        (mapSet p.1 x.filePath (batchValue mt (buildRecordMap data) x),
         mapSet p.2 (normalizeStatusPath x.filePath)
           ⟨env.now, batchValue mt (buildRecordMap data) x⟩) := by
    intro p x
    unfold batchRecordStep batchValue
    cases mapFind (buildRecordMap data) x.name <;> rfl
  have hsplit := foldl_pair_split_of
    (fun m (x : FileReq) => mapSet m x.filePath (batchValue mt (buildRecordMap data) x))
    (fun m (x : FileReq) => mapSet m (normalizeStatusPath x.filePath)
      (⟨env.now, batchValue mt (buildRecordMap data) x⟩ : CacheEntry))
    (batchRecordStep env mt (buildRecordMap data)) hF files
    ([] : List (String × StatusData)) cache
  have hr : batchGetFileOrgStatus env cache mt files =
      ⟨files.foldl (fun m f => mapSet m f.filePath (batchValue mt (buildRecordMap data) f)) [],
       files.foldl (fun m f => mapSet m (normalizeStatusPath f.filePath)
         ⟨env.now, batchValue mt (buildRecordMap data) f⟩) cache,
       [Cmd.dataQuery (buildBatchMetadataQuery mt (inClauseOf (files.map (·.name))))]⟩ := by
    unfold batchGetFileOrgStatus
    rw [batchHitStep_all_miss env cache files [] [] hmiss]
    simp only [hfe, hconn, Bool.not_true, Bool.false_eq_true, if_false, List.nil_append,
      hremote, hsplit]
  refine ⟨by rw [hr], fun f hf => ?_, fun f hf habs => ?_⟩
  · rw [hr]
    rw [foldl_mapSet_mem (fun g => g.filePath) (batchValue mt (buildRecordMap data))
      files [] f hf hkeys]
    rfl
  · have habsent : mapFind (buildRecordMap data) f.name = none :=
      buildRecordMap_not_mem data f.name habs
    have hval : batchValue mt (buildRecordMap data) f = notFoundData := by
      unfold batchValue
      rw [habsent]
    constructor
    · rw [hr]
      rw [foldl_mapSet_mem (fun g => g.filePath) (batchValue mt (buildRecordMap data))
        files [] f hf hkeys, hval]
    · rw [hr]
      rw [foldl_mapSet_mem (fun g => normalizeStatusPath g.filePath)
        (fun g => (⟨env.now, batchValue mt (buildRecordMap data) g⟩ : CacheEntry))
        files cache f hf hnorm, hval]

/-- Witness for C1: two cache-missed Apex classes, the response returning a
record only for `A`; one command is issued, both paths get entries, and `B`
is backfilled and cached as NotFound. -/
theorem batchGetFileOrgStatus_single_query_complete_witness :
    (batchGetFileOrgStatus
        ⟨true, 100, 60000,
          fun _ => .parsed ⟨0, some [⟨some "A", none, none, none, none, none, none, none⟩],
            none⟩⟩
        [] .ApexClass
        [⟨"/ws/classes/A.cls", "A"⟩, ⟨"/ws/classes/B.cls", "B"⟩]).cmds =
      [Cmd.dataQuery (buildBatchMetadataQuery .ApexClass (inClauseOf ["A", "B"]))] ∧
    mapFind (batchGetFileOrgStatus
        ⟨true, 100, 60000,
          fun _ => .parsed ⟨0, some [⟨some "A", none, none, none, none, none, none, none⟩],
            none⟩⟩
        [] .ApexClass
        [⟨"/ws/classes/A.cls", "A"⟩, ⟨"/ws/classes/B.cls", "B"⟩]).results
      "/ws/classes/B.cls" = some notFoundData ∧
    mapFind (batchGetFileOrgStatus
        ⟨true, 100, 60000,
          fun _ => .parsed ⟨0, some [⟨some "A", none, none, none, none, none, none, none⟩],
            none⟩⟩
        [] .ApexClass
        [⟨"/ws/classes/A.cls", "A"⟩, ⟨"/ws/classes/B.cls", "B"⟩]).cache
      (normalizeStatusPath "/ws/classes/B.cls") = some ⟨100, notFoundData⟩ := by
  have h := batchGetFileOrgStatus_single_query_complete
    ⟨true, 100, 60000,
      fun _ => .parsed ⟨0, some [⟨some "A", none, none, none, none, none, none, none⟩], none⟩⟩
    [] .ApexClass [⟨"/ws/classes/A.cls", "A"⟩, ⟨"/ws/classes/B.cls", "B"⟩]
    ⟨0, some [⟨some "A", none, none, none, none, none, none, none⟩], none⟩
    (by decide) rfl
    (fun f _ c hc => Option.noConfusion hc)
    rfl (by decide) (by decide)
  obtain ⟨hcmds, -, hnf⟩ := h
  have hb := hnf ⟨"/ws/classes/B.cls", "B"⟩ (by decide) (by decide)
  exact ⟨hcmds, hb.1, hb.2⟩

/-! ### C3 — unknown (not-yet-compared) files and the in-sync decoration -/

/-- Counterexample to C3 as stated.  First scenario: the diff cache holds an
entry only under the key `A.cls-meta.xml`; for the path `A.cls` there is no
entry under its exact key or its normalized key, and the path is not a
sidecar (so no sidecar-stripped parent key applies), yet `getFileDiffStatus`
reports `isCompared = true` — found by the fourth lookup, the
normalized-equality fallback scan, which the claim's premise omits.  Second
scenario: with the diff cache empty (`isCompared = false`) but a fresh
in-sync decoration in the provider's `_decorationCache`, the provider returns
the checkmark from its cache. -/
theorem getFileDiffStatus_three_key_claim_false :
    (mapFind [("A.cls-meta.xml", (⟨true, none, none, 0⟩ : DiffEntry))] "A.cls" = none ∧
     mapFind [("A.cls-meta.xml", (⟨true, none, none, 0⟩ : DiffEntry))]
       (normalizeFilePath "A.cls") = none ∧
     endsWithStr "A.cls" "-meta.xml" = false ∧
     (getFileDiffStatus [("A.cls-meta.xml", (⟨true, none, none, 0⟩ : DiffEntry))]
       "A.cls").isCompared = true) ∧
    ((getFileDiffStatus [] "/ws/classes/A.cls").isCompared = false ∧
     provideFileDecoration true ⟨true, 1000, 60000, fun _ => .throws "x"⟩ ⟨true, none, none⟩
       [("/ws/classes/A.cls", ⟨0, .inSync⟩)] [] [] 1000 "/ws/classes/A.cls" =
       some .inSync) :=
  ⟨⟨rfl, rfl, rfl, rfl⟩, rfl, rfl⟩

/-- When the diff status of `filePath` reports not-compared, the fresh
decoration decision never yields the in-sync checkmark. -/
theorem freshDecoration_not_inSync (env : QueryEnv) (cs : ConnSnapshot)
    (sc : StatusCache) (dc : DiffCache) (filePath parentFilePath : String)
    (h : (getFileDiffStatus dc filePath).isCompared = false) :
    freshDecoration env cs sc dc filePath parentFilePath ≠ some .inSync := by
  intro hcontra
  unfold freshDecoration at hcontra
  simp only [] at hcontra
  split at hcontra
  · exact Option.noConfusion hcontra
  · split at hcontra
    · simp at hcontra
    · split at hcontra
      · exact Option.noConfusion hcontra
      · split at hcontra
        · simp at hcontra
        · split at hcontra
          · simp at hcontra
          · split at hcontra
            · next hcond =>
                rw [h] at hcond
                simp at hcond
            · exact Option.noConfusion hcontra

/-- C3 (amended): a file path with no diff-cache entry under its exact key,
its normalized key, its sidecar-stripped parent key, *or any key whose
normalized form equals the path's normalized form* (the fallback scan)
reports `isCompared = false`; and for a not-yet-compared file whose fresh
decoration-cache entry (if any) is not the checkmark, `provideFileDecoration`
never produces the in-sync checkmark. -/
theorem getFileDiffStatus_unknown_never_in_sync
    (dc : DiffCache) (filePath : String)
    (h1 : mapFind dc (normalizeFilePath filePath) = none)
    (h2 : mapFind dc filePath = none)
    (h3 : endsWithStr filePath "-meta.xml" = true →
      mapFind dc (replaceFirstStr filePath "-meta.xml" "") = none)
    (h4 : ∀ e ∈ dc, normalizeFilePath e.1 ≠ normalizeFilePath filePath) :
    getFileDiffStatus dc filePath = ⟨false, false, false⟩ ∧
    (∀ (showDecos : Bool) (env : QueryEnv) (cs : ConnSnapshot)
      (decoCache : List (String × DecoCacheEntry)) (sc : StatusCache) (now : Nat),
      (∀ c, mapFind decoCache (getParentFilePath filePath) = some c →
        now - c.timestamp < 60000 → c.decoration ≠ .inSync) →
      provideFileDecoration showDecos env cs decoCache sc dc now filePath ≠ some .inSync) := by
  have hscan : dc.find? (fun e => normalizeFilePath e.1 == normalizeFilePath filePath)
      = none := by
    rw [List.find?_eq_none]
    intro e he
    simp [h4 e he]
  have hmain : getFileDiffStatus dc filePath = ⟨false, false, false⟩ := by
    cases hml : endsWithStr filePath "-meta.xml" with
    | true => simp [getFileDiffStatus, h1, h2, hml, h3 hml, hscan]
    | false => simp [getFileDiffStatus, h1, h2, hml, hscan]
  refine ⟨hmain, ?_⟩
  intro showDecos env cs decoCache sc now hdeco hcontra
  unfold provideFileDecoration at hcontra
  split at hcontra
  · exact Option.noConfusion hcontra
  split at hcontra
  · exact Option.noConfusion hcontra
  simp only [] at hcontra
  split at hcontra
  next d hd =>
    unfold decoCacheHit at hd
    split at hd
    next c hc =>
      split at hd
      next hfr =>
        exact hdeco c hc hfr ((Option.some.inj hd).trans (Option.some.inj hcontra))
      next => exact Option.noConfusion hd
    next => exact Option.noConfusion hd
  next hd =>
    exact freshDecoration_not_inSync env cs sc dc filePath (getParentFilePath filePath)
      (by rw [hmain]) hcontra

/-- Witness for the amended C3 at the empty diff cache and path `A.cls`. -/
theorem getFileDiffStatus_unknown_never_in_sync_witness :
    getFileDiffStatus [] "A.cls" = ⟨false, false, false⟩ ∧
    provideFileDecoration true ⟨true, 0, 60000, fun _ => .throws "x"⟩ ⟨true, none, none⟩
      [] [] [] 0 "A.cls" ≠ some .inSync := by
  obtain ⟨hm, hp⟩ := getFileDiffStatus_unknown_never_in_sync [] "A.cls" rfl rfl
    (fun h => by exact absurd h (by decide))
    (fun e he => absurd he (List.not_mem_nil e))
  exact ⟨hm, hp true ⟨true, 0, 60000, fun _ => .throws "x"⟩ ⟨true, none, none⟩ [] [] 0
    (fun c hc _ => Option.noConfusion hc)⟩

/-! ### C5 — sidecar path sharing and `invalidateFileCache` -/

theorem getFileDiffStatus_nil (q : String) : getFileDiffStatus [] q = ⟨false, false, false⟩ := by
  unfold getFileDiffStatus
  cases hml : endsWithStr q "-meta.xml" <;> simp [hml, mapFind]

theorem ne_append_meta (p : String) : p ≠ p ++ "-meta.xml" := by
  intro h
  have hd : p.data = (p ++ "-meta.xml").data := congrArg String.data h
  rw [String.data_append] at hd
  have hlen := congrArg List.length hd
  rw [List.length_append, show ("-meta.xml".data.length = 9) from rfl] at hlen
  omega

/-- Counterexample to C5 as stated: after the comparison result of
`force-app/main/default/classes/Acc.cls` is stored, invalidating its *sidecar*
path via `invalidateFileCache` (which deletes only exact keys, 1009-1012)
does not remove the shared entry: a subsequent lookup on either path still
reports a compared result, contradicting "invalidating either path removes
the shared entry". -/
theorem invalidateFileCache_sidecar_claim_false :
    (getFileDiffStatus (invalidateFileCache
        ⟨{}, [], diffCacheStore [] "force-app/main/default/classes/Acc.cls"
          ⟨true, some false, none, 5⟩⟩
        ("force-app/main/default/classes/Acc.cls" ++ "-meta.xml")).fileDiffCache
      "force-app/main/default/classes/Acc.cls").isCompared = true ∧
    (getFileDiffStatus (invalidateFileCache
        ⟨{}, [], diffCacheStore [] "force-app/main/default/classes/Acc.cls"
          ⟨true, some false, none, 5⟩⟩
        ("force-app/main/default/classes/Acc.cls" ++ "-meta.xml")).fileDiffCache
      ("force-app/main/default/classes/Acc.cls" ++ "-meta.xml")).isCompared = true :=
  ⟨rfl, rfl⟩

/-- C5 (amended): for a path `p` that is its own normalized form and whose
sidecar form normalizes back to `p`: the batch write stores one shared entry,
resolved by lookups on both `p` and `p ++ "-meta.xml"`; invalidating the
*stored* path `p` removes it, so both lookups subsequently report
not-compared; but invalidating the sidecar path deletes only the exact
sidecar key, leaving the diff cache — and both lookups — unchanged. -/
theorem sidecar_shared_entry_invalidation
    (dc : DiffCache) (p : String) (e : DiffEntry)
    (h1 : normalizeFilePath p = p)
    (h2 : normalizeFilePath (p ++ "-meta.xml") = p) :
    (getFileDiffStatus (diffCacheStore dc p e) p =
        ⟨e.hasDifference, e.isOrgNewer.getD false, true⟩ ∧
     getFileDiffStatus (diffCacheStore dc p e) (p ++ "-meta.xml") =
        ⟨e.hasDifference, e.isOrgNewer.getD false, true⟩) ∧
    (∀ st : TrackerState, st.fileDiffCache = diffCacheStore [] p e →
      getFileDiffStatus (invalidateFileCache st p).fileDiffCache p =
        ⟨false, false, false⟩ ∧
      getFileDiffStatus (invalidateFileCache st p).fileDiffCache (p ++ "-meta.xml") =
        ⟨false, false, false⟩) ∧
    (∀ st : TrackerState, st.fileDiffCache = diffCacheStore [] p e →
      (invalidateFileCache st (p ++ "-meta.xml")).fileDiffCache = st.fileDiffCache ∧
      (getFileDiffStatus (invalidateFileCache st (p ++ "-meta.xml")).fileDiffCache
        p).isCompared = true) := by
  have hstore : diffCacheStore [] p e = [(p, e)] := by
    unfold diffCacheStore
    rw [h1]
    simp [mapSet]
  refine ⟨⟨?_, ?_⟩, ?_, ?_⟩
  · have hfind : mapFind (diffCacheStore dc p e) (normalizeFilePath p) = some e := by
      rw [h1]; exact mapFind_diffCacheStore_self dc p e
    simp [getFileDiffStatus, hfind]
  · have hfind : mapFind (diffCacheStore dc p e) (normalizeFilePath (p ++ "-meta.xml")) =
        some e := by
      rw [h2]; exact mapFind_diffCacheStore_self dc p e
    simp [getFileDiffStatus, hfind]
  · intro st hst
    have hdel : (invalidateFileCache st p).fileDiffCache = [] := by
      unfold invalidateFileCache
      simp [hst, hstore, mapDelete]
    rw [hdel]
    exact ⟨getFileDiffStatus_nil p, getFileDiffStatus_nil (p ++ "-meta.xml")⟩
  · intro st hst
    have hdel : (invalidateFileCache st (p ++ "-meta.xml")).fileDiffCache =
        st.fileDiffCache := by
      unfold invalidateFileCache
      simp [hst, hstore, mapDelete, ne_append_meta p]
    refine ⟨hdel, ?_⟩
    rw [hdel, hst]
    have hfind : mapFind (diffCacheStore [] p e) (normalizeFilePath p) = some e := by
      rw [h1]; exact mapFind_diffCacheStore_self [] p e
    simp [getFileDiffStatus, hfind]

/-- Witness for the amended C5 at a concrete class path. -/
theorem sidecar_shared_entry_invalidation_witness :
    getFileDiffStatus
        (diffCacheStore [] "force-app/main/default/classes/Acc.cls"
          ⟨true, some true, none, 7⟩)
        ("force-app/main/default/classes/Acc.cls" ++ "-meta.xml") = ⟨true, true, true⟩ ∧
    getFileDiffStatus
        (invalidateFileCache
          ⟨{}, [], diffCacheStore [] "force-app/main/default/classes/Acc.cls"
            ⟨true, some true, none, 7⟩⟩
          "force-app/main/default/classes/Acc.cls").fileDiffCache
        "force-app/main/default/classes/Acc.cls" = ⟨false, false, false⟩ := by
  obtain ⟨⟨-, hb⟩, hinv, -⟩ := sidecar_shared_entry_invalidation []
    "force-app/main/default/classes/Acc.cls" ⟨true, some true, none, 7⟩
    (by decide) (by decide)
  exact ⟨hb, (hinv ⟨{}, [], diffCacheStore [] "force-app/main/default/classes/Acc.cls"
    ⟨true, some true, none, 7⟩⟩ rfl).1⟩

/-! ### C4 — scratch directory cleanup (leak on thrown exception) -/

/-- C4 evaluated at the failing input: with a connected org and a diff-cache
miss, `compareFileWithOrg` creates the scratch directory and the retrieve
command then throws (timeout); the `catch` at 604-607 returns the error
*without* removing the directory, so it leaks (`tempDirs` nonempty), and the
same happens in a `batchCompareFilesWithOrg` iteration (catch at 897-899).
In contrast, a parsed non-zero response (`No source-backed components`) does
clean the directory up. -/
theorem compareFileWithOrg_scratch_dir_leak :
    (compareFileWithOrg
        ⟨true, 1000, "/tmp", fun _ => .throws "Command timed out", fun _ => false,
          fun _ => "", fun _ => 0, fun _ _ => none, fun _ => none⟩
        [] "/ws/force-app/main/default/classes/Acc.cls").result.error =
      some "Command timed out" ∧
    (compareFileWithOrg
        ⟨true, 1000, "/tmp", fun _ => .throws "Command timed out", fun _ => false,
          fun _ => "", fun _ => 0, fun _ _ => none, fun _ => none⟩
        [] "/ws/force-app/main/default/classes/Acc.cls").tempDirs =
      ["/tmp/sf-metadata-compare-1000"] ∧
    (compareFileWithOrg
        ⟨true, 1000, "/tmp",
          fun _ => .parsed ⟨1, some "No source-backed components", none⟩,
          fun _ => false, fun _ => "", fun _ => 0, fun _ _ => none, fun _ => none⟩
        [] "/ws/force-app/main/default/classes/Acc.cls").tempDirs = [] ∧
    (runCompareBatch
        ⟨true, 1000, "/tmp", fun _ => .throws "Command timed out", fun _ => false,
          fun _ => "", fun _ => 0, fun _ _ => none, fun _ => none⟩
        [] [] [] [⟨"/ws/force-app/main/default/classes/Acc.cls", "Acc", .ApexClass⟩]).tempDirs
      = ["/tmp/sf-metadata-batch-1000"] :=
  ⟨rfl, rfl, rfl, rfl⟩

end SfTracker
